import Mathlib

/-!
Verification of the hydration-scheduling core of vue3-lazy-hydration.

The repository's `src/utils/index.js` re-exports the modules
`create-hydration-cleanup`, `create-hydration-promise`,
`wait-for-async-components`, `get-root-elements`, … whose bodies are not
present in the source tree; the definitions below are therefore modelled
from the specification of those modules (data model §3, component design
§4, concurrency model §5 of the spec), as shallow executable embeddings:
observable behaviour is a trace of events, platform callbacks are explicit
event lists fed to step functions, and time is an abstract `Nat`.
-/

namespace LazyHydration

/-- Observable events emitted by a lazy region: a cleanup callback being
invoked, a cleanup callback throwing (the error is collected and surfaced
as this event), the subtree readiness wait resolving, a hydrated callback
being invoked, and a development-time diagnostic. -/
inductive Ev where
  | cleanupRun (id : Nat)
  | cleanupErr (id : Nat)
  | readinessResolved
  | hydratedNotify (id : Nat)
  | diagnostic (msg : String)
  deriving DecidableEq, Repr

/-- Modelled from the spec: the `HydrationState` record produced by
`createHydrationPromise` / `useLazyHydration` (spec §3, §4.1).
`willPerformHydration` is fixed at creation; `isHydrated` starts false;
callbacks are ordered registration sequences, identified by ids. -/
structure HydrationState where
  willPerformHydration : Bool
  isHydrated : Bool
  cleanupCallbacks : List Nat
  hydratedCallbacks : List Nat
  deriving DecidableEq, Repr

/-- Modelled from the spec: `create(willPerformHydration)` (spec §4.1). -/
def HydrationState.create (w : Bool) : HydrationState :=
  { willPerformHydration := w
    isHydrated := false
    cleanupCallbacks := []
    hydratedCallbacks := [] }

/-- Modelled from the spec: `onCleanup(callback)` registration, order
preserving; registering after the trigger has fired is a no-op (§4.1). -/
def HydrationState.onCleanup (s : HydrationState) (id : Nat) : HydrationState :=
  if s.isHydrated then s
  else { s with cleanupCallbacks := s.cleanupCallbacks ++ [id] }

/-- Modelled from the spec: `onHydrated(callback)` registration, order
preserving; registering after the trigger has fired is a no-op (§4.1). -/
def HydrationState.onHydrated (s : HydrationState) (id : Nat) : HydrationState :=
  if s.isHydrated then s
  else { s with hydratedCallbacks := s.hydratedCallbacks ++ [id] }

/-- Modelled from the spec: running the registered cleanup callbacks in
order, each wrapped so that a throwing callback (given by the `throws`
predicate) is collected and surfaced but does not prevent the remaining
callbacks from running (spec §4.1, `createHydrationCleanup`).
Returns the emitted event trace and the list of collected errors. -/
def runCleanups (throws : Nat → Bool) : List Nat → List Ev × List Nat
  | [] => ([], [])
  | id :: rest =>
      let tail := runCleanups throws rest
      if throws id then
        (Ev.cleanupRun id :: Ev.cleanupErr id :: tail.1, id :: tail.2)
      else
        (Ev.cleanupRun id :: tail.1, tail.2)

/-- Modelled from the spec: `trigger()` of the hydration state (spec §4.1).
If `isHydrated` is already true or `willPerformHydration` is false this is
a no-op; otherwise all cleanup callbacks run in order, `isHydrated` is set,
the subtree readiness wait resolves, and then the hydrated callbacks run
in order. Returns the new state and the emitted event trace. -/
def HydrationState.trigger (throws : Nat → Bool) (s : HydrationState) :
    HydrationState × List Ev :=
  if s.isHydrated || !s.willPerformHydration then (s, [])
  else
    ({ s with isHydrated := true, cleanupCallbacks := [] },
      (runCleanups throws s.cleanupCallbacks).1
        ++ Ev.readinessResolved :: s.hydratedCallbacks.map Ev.hydratedNotify)

/-- N successive calls to `trigger()` on the same region, concatenating
the emitted traces. -/
def HydrationState.triggerN (throws : Nat → Bool) :
    Nat → HydrationState → HydrationState × List Ev
  | 0, s => (s, [])
  | n + 1, s =>
      let p := s.trigger throws
      let q := HydrationState.triggerN throws n p.1
      (q.1, p.2 ++ q.2)

/-- The cleanup-callback ids recorded in a trace, in order. -/
def cleanupRuns (tr : List Ev) : List Nat :=
  tr.filterMap fun e =>
    match e with
    | Ev.cleanupRun id => some id
    | _ => none

/-- The hydrated-callback ids recorded in a trace, in order. -/
def hydratedRuns (tr : List Ev) : List Nat :=
  tr.filterMap fun e =>
    match e with
    | Ev.hydratedNotify id => some id
    | _ => none

/-- Modelled from the spec: the signal strategy state of
`useHydrateWhenTriggered` (spec §4.2, Signal): it observes an external
boolean-like reactive source while `observing` is true; firing or cleanup
stops the observation. -/
structure SignalStrategy where
  observing : Bool
  deriving DecidableEq, Repr

/-- Modelled from the spec: arming `useHydrateWhenTriggered` against a
source whose current value is `initial` (spec §4.2, Signal). If the source
is already true at arm time, hydrate fires immediately and observation
stops; otherwise the strategy starts observing. Returns the strategy state
and the number of hydrate calls made at arm time. -/
def armWhenTriggered (initial : Bool) : SignalStrategy × Nat :=
  if initial then ({ observing := false }, 1) else ({ observing := true }, 0)

/-- Modelled from the spec: one change notification of the observed source
to the value `v` (spec §4.2, Signal). The moment the value becomes true
while observing, hydrate is called once and observation stops. Returns the
new strategy state and the number of hydrate calls. -/
def onSignalChange (st : SignalStrategy) (v : Bool) : SignalStrategy × Nat :=
  if st.observing && v then ({ observing := false }, 1) else (st, 0)

/-- Modelled from the spec: the signal strategy cleanup stops observation
(spec §4.2, Signal). -/
def cleanupSignal (_st : SignalStrategy) : SignalStrategy :=
  { observing := false }

/-- Feed a sequence of source-change notifications to the signal strategy,
counting the hydrate calls. -/
def runSignal : SignalStrategy → List Bool → SignalStrategy × Nat
  | st, [] => (st, 0)
  | st, v :: rest =>
      let p := onSignalChange st v
      let q := runSignal p.1 rest
      (q.1, p.2 + q.2)

/-- Modelled from the spec: the default idle timeout of
`useHydrateWhenIdle` (spec §6: default timeout 2000ms). -/
def defaultIdleTimeout : Nat := 2000

/-- Modelled from the spec: `useHydrateWhenIdle` applies the default
timeout of 2000ms when its timeout argument is omitted (spec §6). -/
def effectiveIdleTimeout (arg : Option Nat) : Nat :=
  arg.getD defaultIdleTimeout

/-- Modelled from the spec: the time at which the idle strategy calls
hydrate (spec §4.2, Idle). With the platform idle-scheduling capability, a
callback with the given timeout is requested: it fires on the idle signal
(`idleAt`) or on timeout expiry, whichever comes first. Without the
capability, a fixed-delay timer using the timeout value fires, or the next
macrotask (time 0) if no timeout is given. -/
def idleStrategyFireTime (idleSupported : Bool) (idleAt : Nat)
    (timeout : Option Nat) : Nat :=
  if idleSupported then
    match timeout with
    | some t => min idleAt t
    | none => idleAt
  else
    match timeout with
    | some t => t
    | none => 0

/-- Modelled from the spec: the pending idle/timeout platform request of
the idle strategy; cleanup cancels it (spec §4.2, Idle). -/
structure IdleRequest where
  fireAt : Nat
  cancelled : Bool
  deriving DecidableEq, Repr

/-- Modelled from the spec: cleanup of the idle strategy cancels the
pending idle/timeout request (spec §4.2, Idle). -/
def IdleRequest.cancel (r : IdleRequest) : IdleRequest :=
  { r with cancelled := true }

/-- Whether the pending idle/timeout request calls hydrate at time `t`:
only an uncancelled request fires, at its scheduled time. -/
def IdleRequest.fires (r : IdleRequest) (t : Nat) : Bool :=
  !r.cancelled && r.fireAt == t

/-- Modelled from the spec: the visible strategy state of
`useHydrateWhenVisible` (spec §4.2, Visible): one observer covering all
root elements, single-fire via the `armed` flag. -/
structure VisibleStrategy where
  observed : List Nat
  armed : Bool
  deriving DecidableEq, Repr

/-- Modelled from the spec: arming `useHydrateWhenVisible` against the
root element set (spec §4.2, Visible): a non-empty RootElementSet is
required; if empty, a development-time diagnostic is raised and nothing is
observed. Returns the strategy state and the emitted trace. -/
def armWhenVisible (els : List Nat) : VisibleStrategy × List Ev :=
  if els.isEmpty then
    ({ observed := [], armed := false },
      [Ev.diagnostic "empty root element set"])
  else
    ({ observed := els, armed := true }, [])

/-- Modelled from the spec: one intersection notification for element
`el` (spec §4.2, Visible): on any observed element intersecting, hydrate
is called once and all elements stop being observed. Returns the new
strategy state and the number of hydrate calls. -/
def onIntersect (st : VisibleStrategy) (el : Nat) : VisibleStrategy × Nat :=
  if st.armed && st.observed.contains el then
    ({ observed := [], armed := false }, 1)
  else (st, 0)

/-- Modelled from the spec: cleanup of the visible strategy disconnects
the observer whether or not it fired (spec §4.2, Visible). -/
def cleanupVisible (_st : VisibleStrategy) : VisibleStrategy :=
  { observed := [], armed := false }

/-- Feed a sequence of intersection notifications to the visible strategy,
counting the hydrate calls. -/
def runVisible : VisibleStrategy → List Nat → VisibleStrategy × Nat
  | st, [] => (st, 0)
  | st, el :: rest =>
      let p := onIntersect st el
      let q := runVisible p.1 rest
      (q.1, p.2 + q.2)

/-- Modelled from the spec: the default event set of
`useHydrateOnInteraction` (spec §4.2, Interaction: default event set is
focus if none given). -/
def defaultInteractionEvents : List String := ["focus"]

/-- Modelled from the spec: `useHydrateOnInteraction` applies the default
event list when its events argument is omitted (spec §6). -/
def effectiveInteractionEvents (arg : Option (List String)) : List String :=
  arg.getD defaultInteractionEvents

/-- Modelled from the spec: the interaction strategy state of
`useHydrateOnInteraction` (spec §4.2, Interaction): the attached
listeners, one per configured event per root element, single-fire via the
`armed` flag. -/
structure InteractionStrategy where
  listeners : List (String × Nat)
  armed : Bool
  deriving DecidableEq, Repr

/-- Modelled from the spec: the listeners attached at arm time: one
listener per configured event per root element (spec §4.2, Interaction). -/
def interactionListeners (events : List String) (els : List Nat) :
    List (String × Nat) :=
  events.flatMap fun e => els.map fun el => (e, el)

/-- Modelled from the spec: arming `useHydrateOnInteraction` against the
root element set (spec §4.2, Interaction): a non-empty RootElementSet is
required, with the same empty-set diagnostic policy as the visible
strategy. Returns the strategy state and the emitted trace. -/
def armOnInteraction (events : List String) (els : List Nat) :
    InteractionStrategy × List Ev :=
  if els.isEmpty then
    ({ listeners := [], armed := false },
      [Ev.diagnostic "empty root element set"])
  else
    ({ listeners := interactionListeners events els, armed := true }, [])

/-- Modelled from the spec: one DOM event dispatch, given as the pair of
event name and target element (spec §4.2, Interaction): on the first
dispatch matching an attached listener, hydrate is called once and all
listeners are removed. Returns the new strategy state and the number of
hydrate calls. -/
def onDomEvent (st : InteractionStrategy) (occ : String × Nat) :
    InteractionStrategy × Nat :=
  if st.armed && st.listeners.contains occ then
    ({ listeners := [], armed := false }, 1)
  else (st, 0)

/-- Modelled from the spec: cleanup of the interaction strategy removes
all listeners regardless of firing state (spec §4.2, Interaction). -/
def cleanupInteraction (_st : InteractionStrategy) : InteractionStrategy :=
  { listeners := [], armed := false }

/-- Feed a sequence of DOM event dispatches to the interaction strategy,
counting the hydrate calls. -/
def runInteraction : InteractionStrategy → List (String × Nat) →
    InteractionStrategy × Nat
  | st, [] => (st, 0)
  | st, occ :: rest =>
      let p := onDomEvent st occ
      let q := runInteraction p.1 rest
      (q.1, p.2 + q.2)

/-- Modelled from the spec: an asynchronous descendant component as seen
by `waitForAsyncComponents` (spec §4.3): it settles at time `settleAt`,
either resolving or rejecting. -/
structure AsyncDesc where
  id : Nat
  settleAt : Nat
  resolves : Bool
  deriving DecidableEq, Repr

/-- The time at which every descendant in the list has settled: 0 when the
list is empty. -/
def readinessResolveTime (descs : List AsyncDesc) : Nat :=
  descs.foldr (fun d acc => max d.settleAt acc) 0

/-- The diagnostics surfaced by the readiness wait: the ids of the
descendants that rejected. -/
def readinessDiagnostics (descs : List AsyncDesc) : List Nat :=
  (descs.filter fun d => !d.resolves).map AsyncDesc.id

/-- Modelled from the spec: `waitForAsyncComponents` (spec §4.3): given
the async descendants discovered within the region's subtree at the
moment hydration is triggered, returns the time at which the wait
resolves together with the surfaced diagnostics. -/
def waitForAsyncComponents (snapshot : List AsyncDesc) : Nat × List Nat :=
  (readinessResolveTime snapshot, readinessDiagnostics snapshot)

/-- Modelled from the spec: a region's subtree as it evolves around the
hydration trigger (spec §4.3): the async descendants discovered at
trigger time and those added after triggering. -/
structure SubtreeTimeline where
  atTrigger : List AsyncDesc
  addedAfter : List AsyncDesc
  deriving DecidableEq, Repr

/-- Modelled from the spec: the readiness wait of a region discovers the
descendants once, at trigger time, and never re-scans (spec §4.3). -/
def regionReadiness (r : SubtreeTimeline) : Nat × List Nat :=
  waitForAsyncComponents r.atTrigger

/-- A sample client-pass region with one cleanup and one hydrated
callback, used to instantiate the claims at concrete inputs. -/
def regionPending : HydrationState :=
  { willPerformHydration := true
    isHydrated := false
    cleanupCallbacks := [0]
    hydratedCallbacks := [1] }

/-- A sample already-hydrated region. -/
def regionHydrated : HydrationState :=
  { willPerformHydration := true
    isHydrated := true
    cleanupCallbacks := []
    hydratedCallbacks := [2] }

/-- A sample server-pass region: `willPerformHydration` is false. -/
def regionServer : HydrationState :=
  { willPerformHydration := false
    isHydrated := false
    cleanupCallbacks := [0]
    hydratedCallbacks := [1] }

/-- A sample region with two cleanup and two hydrated callbacks. -/
def regionOrdered : HydrationState :=
  { willPerformHydration := true
    isHydrated := false
    cleanupCallbacks := [1, 2]
    hydratedCallbacks := [3, 4] }

/-- A sample region with three cleanup callbacks of which the second
throws, and one hydrated callback. -/
def regionThrowing : HydrationState :=
  { willPerformHydration := true
    isHydrated := false
    cleanupCallbacks := [1, 2, 3]
    hydratedCallbacks := [9] }

/-- A sample async descendant that resolves at time 5. -/
def descSlow : AsyncDesc := { id := 1, settleAt := 5, resolves := true }

/-- A sample async descendant that rejects at time 3. -/
def descRejecting : AsyncDesc := { id := 2, settleAt := 3, resolves := false }

/-- A sample async descendant appearing only after triggering. -/
def descLate : AsyncDesc := { id := 7, settleAt := 100, resolves := true }

theorem trigger_of_hydrated (throws : Nat → Bool) (s : HydrationState)
    (h : s.isHydrated = true) : s.trigger throws = (s, []) := by
  simp [HydrationState.trigger, h]

theorem trigger_of_noHydration (throws : Nat → Bool) (s : HydrationState)
    (h : s.willPerformHydration = false) : s.trigger throws = (s, []) := by
  simp [HydrationState.trigger, h]

theorem trigger_isHydrated (throws : Nat → Bool) (s : HydrationState)
    (h : s.willPerformHydration = true) :
    (s.trigger throws).1.isHydrated = true := by
  unfold HydrationState.trigger
  by_cases hh : s.isHydrated = true
  · simp [hh]
  · simp [hh, h]

theorem triggerN_of_hydrated (throws : Nat → Bool) (n : Nat)
    (s : HydrationState) (h : s.isHydrated = true) :
    HydrationState.triggerN throws n s = (s, []) := by
  induction n with
  | zero => rfl
  | succ n ih =>
      simp [HydrationState.triggerN, trigger_of_hydrated throws s h, ih]

theorem triggerN_collapse (throws : Nat → Bool) (n : Nat)
    (s : HydrationState) (hw : s.willPerformHydration = true) :
    HydrationState.triggerN throws (n + 1) s = s.trigger throws := by
  have h1 : (s.trigger throws).1.isHydrated = true := trigger_isHydrated throws s hw
  simp [HydrationState.triggerN, triggerN_of_hydrated throws n _ h1]

theorem cleanupRuns_runCleanups (throws : Nat → Bool) (l : List Nat) :
    cleanupRuns (runCleanups throws l).1 = l := by
  induction l with
  | nil => rfl
  | cons id rest ih =>
      by_cases h : throws id = true
      · simp [runCleanups, cleanupRuns, h] at ih ⊢
        exact ih
      · simp [runCleanups, cleanupRuns, h] at ih ⊢
        exact ih

theorem hydratedRuns_runCleanups (throws : Nat → Bool) (l : List Nat) :
    hydratedRuns (runCleanups throws l).1 = [] := by
  induction l with
  | nil => rfl
  | cons id rest ih =>
      by_cases h : throws id = true
      · simp [runCleanups, hydratedRuns, h] at ih ⊢
        exact ih
      · simp [runCleanups, hydratedRuns, h] at ih ⊢
        exact ih

theorem runCleanups_errors (throws : Nat → Bool) (l : List Nat) :
    (runCleanups throws l).2 = l.filter throws := by
  induction l with
  | nil => rfl
  | cons id rest ih =>
      by_cases h : throws id = true
      · simp [runCleanups, h, ih]
      · simp [runCleanups, h, ih]

theorem cleanupErr_mem_runCleanups (throws : Nat → Bool) (l : List Nat)
    (id : Nat) (hmem : id ∈ l) (hth : throws id = true) :
    Ev.cleanupErr id ∈ (runCleanups throws l).1 := by
  induction l with
  | nil => cases hmem
  | cons a rest ih =>
      rcases List.mem_cons.mp hmem with h | h
      · subst h
        simp [runCleanups, hth]
      · by_cases ha : throws a = true
        · simp [runCleanups, ha, ih h]
        · simp [runCleanups, ha, ih h]

theorem hydratedRuns_map (l : List Nat) :
    hydratedRuns (l.map Ev.hydratedNotify) = l := by
  induction l with
  | nil => rfl
  | cons a rest ih =>
      simp [hydratedRuns] at ih ⊢
      exact ih

theorem cleanupRuns_map_hydrated (l : List Nat) :
    cleanupRuns (l.map Ev.hydratedNotify) = [] := by
  induction l with
  | nil => rfl
  | cons a rest ih => simp [cleanupRuns, ih]

theorem runSignal_of_notObserving (st : SignalStrategy)
    (h : st.observing = false) (vs : List Bool) :
    runSignal st vs = (st, 0) := by
  induction vs with
  | nil => rfl
  | cons v rest ih => simp [runSignal, onSignalChange, h, ih]

theorem runSignal_count (vs : List Bool) :
    (runSignal { observing := true } vs).2
      = if vs.any (fun v => v) then 1 else 0 := by
  induction vs with
  | nil => rfl
  | cons v rest ih =>
      by_cases h : v = true
      · subst h
        simp [runSignal, onSignalChange,
          runSignal_of_notObserving { observing := false } rfl rest]
      · have hv : v = false := by simpa using h
        subst hv
        simp [runSignal, onSignalChange, ih]

theorem runVisible_of_notArmed (st : VisibleStrategy)
    (h : st.armed = false) (evs : List Nat) :
    runVisible st evs = (st, 0) := by
  induction evs with
  | nil => rfl
  | cons el rest ih => simp [runVisible, onIntersect, h, ih]

theorem runVisible_count (els : List Nat) (evs : List Nat) :
    (runVisible { observed := els, armed := true } evs).2
      = if evs.any (fun el => els.contains el) then 1 else 0 := by
  induction evs with
  | nil => rfl
  | cons el rest ih =>
      by_cases h : el ∈ els
      · simp [runVisible, onIntersect, h,
          runVisible_of_notArmed { observed := [], armed := false } rfl rest]
      · simp only [runVisible, onIntersect] at ih ⊢
        simp [h, ih]

theorem runInteraction_of_notArmed (st : InteractionStrategy)
    (h : st.armed = false) (occs : List (String × Nat)) :
    runInteraction st occs = (st, 0) := by
  induction occs with
  | nil => rfl
  | cons occ rest ih => simp [runInteraction, onDomEvent, h, ih]

theorem runInteraction_count (l : List (String × Nat))
    (occs : List (String × Nat)) :
    (runInteraction { listeners := l, armed := true } occs).2
      = if occs.any (fun o => l.contains o) then 1 else 0 := by
  induction occs with
  | nil => rfl
  | cons occ rest ih =>
      by_cases h : occ ∈ l
      · simp [runInteraction, onDomEvent, h,
          runInteraction_of_notArmed { listeners := [], armed := false } rfl rest]
      · have hc : l.contains occ = false := by simpa using h
        simp only [runInteraction, onDomEvent] at ih ⊢
        rw [List.any_cons, hc, Bool.false_or]
        simp [ih]

theorem mem_interactionListeners (events : List String) (els : List Nat)
    (p : String × Nat) :
    p ∈ interactionListeners events els ↔ p.1 ∈ events ∧ p.2 ∈ els := by
  constructor
  · intro h
    rcases List.mem_flatMap.mp h with ⟨e, he, hmem⟩
    rcases List.mem_map.mp hmem with ⟨el, hel, heq⟩
    cases heq
    exact ⟨he, hel⟩
  · intro h
    exact List.mem_flatMap.mpr ⟨p.1, h.1, List.mem_map.mpr ⟨p.2, h.2, rfl⟩⟩

theorem length_interactionListeners (events : List String) (els : List Nat) :
    (interactionListeners events els).length
      = events.length * els.length := by
  induction events with
  | nil => simp [interactionListeners]
  | cons e rest ih =>
      simp only [interactionListeners, List.flatMap_cons, List.length_append,
        List.length_map, List.length_cons] at ih ⊢
      rw [ih]
      ring

theorem cleanupRuns_append (a b : List Ev) :
    cleanupRuns (a ++ b) = cleanupRuns a ++ cleanupRuns b := by
  simp [cleanupRuns, List.filterMap_append]

theorem hydratedRuns_append (a b : List Ev) :
    hydratedRuns (a ++ b) = hydratedRuns a ++ hydratedRuns b := by
  simp [hydratedRuns, List.filterMap_append]

/-- Claim C1: for every region instance, calling hydrate() any number
N>1 of times results in exactly one hydration transition and exactly one
hydrated notification: isHydrated starts false, transitions to true
exactly once and never reverts, and any call to trigger() after
isHydrated is already true is a no-op. -/
theorem hydrate_idempotent (throws : Nat → Bool) (n : Nat)
    (s s2 : HydrationState) (hw : s.willPerformHydration = true)
    (hn : 1 ≤ n) (h2 : s2.isHydrated = true) :
    (HydrationState.create s.willPerformHydration).isHydrated = false
    ∧ HydrationState.triggerN throws n s = s.trigger throws
    ∧ (s.trigger throws).1.isHydrated = true
    ∧ s2.trigger throws = (s2, [])
    ∧ (s2.trigger throws).1.isHydrated = true := by
  obtain ⟨m, rfl⟩ : ∃ m, n = m + 1 := ⟨n - 1, (Nat.succ_pred_eq_of_pos hn).symm⟩
  refine ⟨rfl, triggerN_collapse throws m s hw, trigger_isHydrated throws s hw,
    trigger_of_hydrated throws s2 h2, ?_⟩
  rw [trigger_of_hydrated throws s2 h2]
  exact h2

theorem hydrate_idempotent_witness :
    (HydrationState.create regionPending.willPerformHydration).isHydrated = false
    ∧ HydrationState.triggerN (fun _ => false) 3 regionPending
      = regionPending.trigger (fun _ => false)
    ∧ (regionPending.trigger (fun _ => false)).1.isHydrated = true
    ∧ regionHydrated.trigger (fun _ => false) = (regionHydrated, [])
    ∧ (regionHydrated.trigger (fun _ => false)).1.isHydrated = true :=
  hydrate_idempotent (fun _ => false) 3 regionPending regionHydrated
    rfl (by decide) rfl

/-- Claim C2: for every region whose willPerformHydration is false, no
trigger strategy ever causes a hydration effect and the hydrated
notification never fires, regardless of which trigger conditions occur;
every call to trigger() in that state is a no-op. -/
theorem server_pass_suppression (throws : Nat → Bool) (n : Nat)
    (s : HydrationState) (hw : s.willPerformHydration = false) :
    HydrationState.triggerN throws n s = (s, [])
    ∧ hydratedRuns (HydrationState.triggerN throws n s).2 = [] := by
  have key : HydrationState.triggerN throws n s = (s, []) := by
    induction n with
    | zero => rfl
    | succ n ih =>
        simp [HydrationState.triggerN, trigger_of_noHydration throws s hw, ih]
  exact ⟨key, by rw [key]; rfl⟩

theorem server_pass_suppression_witness :
    HydrationState.triggerN (fun _ => false) 5 regionServer
      = (regionServer, [])
    ∧ hydratedRuns (HydrationState.triggerN (fun _ => false) 5 regionServer).2
      = [] :=
  server_pass_suppression (fun _ => false) 5 regionServer rfl

/-- Claim C3: for every region with registered cleanup callbacks C1..Cn
and hydrated callbacks H1..Hm, the observed call order on hydration is
C1..Cn in registration order, all completing before any of H1..Hm begins,
and H1..Hm begin only after the subtree readiness wait resolves and then
run in registration order. -/
theorem cleanup_before_hydrated_order (throws : Nat → Bool)
    (s : HydrationState) (hw : s.willPerformHydration = true)
    (hh : s.isHydrated = false) :
    ∃ pre post,
      (s.trigger throws).2 = pre ++ Ev.readinessResolved :: post
      ∧ cleanupRuns pre = s.cleanupCallbacks
      ∧ hydratedRuns pre = []
      ∧ cleanupRuns post = []
      ∧ hydratedRuns post = s.hydratedCallbacks := by
  refine ⟨(runCleanups throws s.cleanupCallbacks).1,
    s.hydratedCallbacks.map Ev.hydratedNotify, ?_,
    cleanupRuns_runCleanups throws s.cleanupCallbacks,
    hydratedRuns_runCleanups throws s.cleanupCallbacks,
    cleanupRuns_map_hydrated s.hydratedCallbacks,
    hydratedRuns_map s.hydratedCallbacks⟩
  simp [HydrationState.trigger, hh, hw]

theorem cleanup_before_hydrated_order_witness :
    ∃ pre post,
      (regionOrdered.trigger (fun _ => false)).2
        = pre ++ Ev.readinessResolved :: post
      ∧ cleanupRuns pre = regionOrdered.cleanupCallbacks
      ∧ hydratedRuns pre = []
      ∧ cleanupRuns post = []
      ∧ hydratedRuns post = regionOrdered.hydratedCallbacks :=
  cleanup_before_hydrated_order (fun _ => false) regionOrdered rfl rfl

/-- Claim C5: if a registered cleanup callback throws during trigger(),
the error is collected and surfaced but all remaining cleanup callbacks
still run in registration order, and the hydration transition still
completes: isHydrated becomes true and the hydrated notification is still
fired after readiness. -/
theorem cleanup_error_isolation (throws : Nat → Bool) (s : HydrationState)
    (bad : Nat) (hw : s.willPerformHydration = true)
    (hh : s.isHydrated = false) (hmem : bad ∈ s.cleanupCallbacks)
    (hth : throws bad = true) :
    cleanupRuns (s.trigger throws).2 = s.cleanupCallbacks
    ∧ Ev.cleanupErr bad ∈ (s.trigger throws).2
    ∧ (s.trigger throws).1.isHydrated = true
    ∧ hydratedRuns (s.trigger throws).2 = s.hydratedCallbacks := by
  have htr : (s.trigger throws).2
      = (runCleanups throws s.cleanupCallbacks).1
        ++ Ev.readinessResolved :: s.hydratedCallbacks.map Ev.hydratedNotify := by
    simp [HydrationState.trigger, hh, hw]
  refine ⟨?_, ?_, trigger_isHydrated throws s hw, ?_⟩
  · rw [htr, cleanupRuns_append, cleanupRuns_runCleanups]
    have : cleanupRuns (Ev.readinessResolved
        :: s.hydratedCallbacks.map Ev.hydratedNotify)
        = cleanupRuns (s.hydratedCallbacks.map Ev.hydratedNotify) := by
      simp [cleanupRuns]
    rw [this, cleanupRuns_map_hydrated, List.append_nil]
  · rw [htr]
    exact List.mem_append_left _
      (cleanupErr_mem_runCleanups throws s.cleanupCallbacks bad hmem hth)
  · rw [htr, hydratedRuns_append, hydratedRuns_runCleanups]
    have : hydratedRuns (Ev.readinessResolved
        :: s.hydratedCallbacks.map Ev.hydratedNotify)
        = hydratedRuns (s.hydratedCallbacks.map Ev.hydratedNotify) := by
      simp [hydratedRuns]
    rw [this, hydratedRuns_map, List.nil_append]

theorem cleanup_error_isolation_witness :
    cleanupRuns (regionThrowing.trigger (fun i => i == 2)).2
      = regionThrowing.cleanupCallbacks
    ∧ Ev.cleanupErr 2 ∈ (regionThrowing.trigger (fun i => i == 2)).2
    ∧ (regionThrowing.trigger (fun i => i == 2)).1.isHydrated = true
    ∧ hydratedRuns (regionThrowing.trigger (fun i => i == 2)).2
      = regionThrowing.hydratedCallbacks :=
  cleanup_error_isolation (fun i => i == 2) regionThrowing 2 rfl rfl
    (by decide) (by decide)

theorem settleAt_le_resolveTime (l : List AsyncDesc) (d : AsyncDesc)
    (h : d ∈ l) : d.settleAt ≤ readinessResolveTime l := by
  induction l with
  | nil => cases h
  | cons a rest ih =>
      rcases List.mem_cons.mp h with h | h
      · subst h
        exact le_max_left _ _
      · exact le_trans (ih h) (le_max_right _ _)

theorem resolveTime_attained (l : List AsyncDesc) (hne : l ≠ []) :
    ∃ d ∈ l, readinessResolveTime l = d.settleAt := by
  induction l with
  | nil => exact absurd rfl hne
  | cons a rest ih =>
      cases rest with
      | nil =>
          refine ⟨a, List.mem_cons_self a [], ?_⟩
          simp [readinessResolveTime]
      | cons b r =>
          rcases ih (by simp) with ⟨d, hd, hEq⟩
          rcases le_total (readinessResolveTime (b :: r)) a.settleAt with hle | hle
          · refine ⟨a, List.mem_cons_self _ _, ?_⟩
            simpa [readinessResolveTime] using max_eq_left hle
          · refine ⟨d, List.mem_cons_of_mem a hd, ?_⟩
            have : readinessResolveTime (a :: b :: r)
                = readinessResolveTime (b :: r) := by
              simpa [readinessResolveTime] using max_eq_right hle
            rw [this, hEq]

theorem resolveTime_map_outcome (l : List AsyncDesc) (f : Nat → Bool) :
    readinessResolveTime (l.map fun x =>
      { id := x.id, settleAt := x.settleAt, resolves := f x.id })
      = readinessResolveTime l := by
  induction l with
  | nil => rfl
  | cons a rest ih => simp [readinessResolveTime] at ih ⊢; rw [ih]

theorem mem_readinessDiagnostics (l : List AsyncDesc) (d : AsyncDesc)
    (hmem : d ∈ l) (hrej : d.resolves = false) :
    d.id ∈ readinessDiagnostics l := by
  refine List.mem_map.mpr ⟨d, List.mem_filter.mpr ⟨hmem, ?_⟩, rfl⟩
  simp [hrej]

/-- Claim C4: for each of the four strategies (idle, visible,
interaction, signal), if the region unmounts before hydration occurs, the
strategy's pending platform registration is cancelled, and a later firing
of the underlying platform condition produces no effect. -/
theorem strategy_cancellation_on_unmount (r : IdleRequest) (t : Nat)
    (stv : VisibleStrategy) (sti : InteractionStrategy) (sts : SignalStrategy)
    (evs : List Nat) (occs : List (String × Nat)) (vals : List Bool) :
    (r.cancel).fires t = false
    ∧ runVisible (cleanupVisible stv) evs = (cleanupVisible stv, 0)
    ∧ runInteraction (cleanupInteraction sti) occs = (cleanupInteraction sti, 0)
    ∧ runSignal (cleanupSignal sts) vals = (cleanupSignal sts, 0) := by
  refine ⟨?_, ?_, ?_, ?_⟩
  · simp [IdleRequest.cancel, IdleRequest.fires]
  · exact runVisible_of_notArmed _ rfl evs
  · exact runInteraction_of_notArmed _ rfl occs
  · exact runSignal_of_notObserving _ rfl vals

/-- Claim C6: the subtree readiness wait resolves immediately when no
async descendant exists at trigger time, otherwise once every async
descendant discovered at trigger time has settled; a rejection does not
block resolution and is surfaced only as a diagnostic; descendants added
after triggering are not waited on. -/
theorem readiness_wait_contract (snapshot later later2 : List AsyncDesc)
    (d drej : AsyncDesc) (f : Nat → Bool)
    (hmem : d ∈ snapshot) (hrejmem : drej ∈ snapshot)
    (hrej : drej.resolves = false) :
    waitForAsyncComponents [] = (0, [])
    ∧ d.settleAt ≤ (waitForAsyncComponents snapshot).1
    ∧ (∃ d2 ∈ snapshot, (waitForAsyncComponents snapshot).1 = d2.settleAt)
    ∧ (waitForAsyncComponents (snapshot.map fun x =>
        { id := x.id, settleAt := x.settleAt, resolves := f x.id })).1
      = (waitForAsyncComponents snapshot).1
    ∧ drej.id ∈ (waitForAsyncComponents snapshot).2
    ∧ regionReadiness { atTrigger := snapshot, addedAfter := later }
      = regionReadiness { atTrigger := snapshot, addedAfter := later2 } := by
  have hne : snapshot ≠ [] := by
    intro h
    rw [h] at hmem
    cases hmem
  exact ⟨rfl, settleAt_le_resolveTime snapshot d hmem,
    resolveTime_attained snapshot hne,
    resolveTime_map_outcome snapshot f,
    mem_readinessDiagnostics snapshot drej hrejmem hrej, rfl⟩

theorem readiness_wait_contract_witness :
    waitForAsyncComponents [] = (0, [])
    ∧ descSlow.settleAt
      ≤ (waitForAsyncComponents [descSlow, descRejecting]).1
    ∧ (∃ d2 ∈ [descSlow, descRejecting],
        (waitForAsyncComponents [descSlow, descRejecting]).1 = d2.settleAt)
    ∧ (waitForAsyncComponents ([descSlow, descRejecting].map fun x =>
        { id := x.id, settleAt := x.settleAt, resolves := true })).1
      = (waitForAsyncComponents [descSlow, descRejecting]).1
    ∧ descRejecting.id ∈ (waitForAsyncComponents [descSlow, descRejecting]).2
    ∧ regionReadiness
        { atTrigger := [descSlow, descRejecting], addedAfter := [descLate] }
      = regionReadiness
        { atTrigger := [descSlow, descRejecting], addedAfter := [] } :=
  readiness_wait_contract [descSlow, descRejecting] [descLate] []
    descSlow descRejecting (fun _ => true) (by decide) (by decide) (by decide)

/-- Claim C7: for the signal strategy, a source already true at arm time
hydrates immediately without waiting for a change event; a source
starting false hydrates exactly once at the first transition to true and
never on subsequent changes; cleanup stops the observation. -/
theorem signal_strategy_contract (vals pre post : List Bool)
    (hpre : ∀ b ∈ pre, b = false) :
    armWhenTriggered true = ({ observing := false }, 1)
    ∧ (runSignal (armWhenTriggered true).1 vals).2 = 0
    ∧ armWhenTriggered false = ({ observing := true }, 0)
    ∧ (runSignal (armWhenTriggered false).1 pre).2 = 0
    ∧ (runSignal (armWhenTriggered false).1 (pre ++ true :: post)).2 = 1
    ∧ runSignal (cleanupSignal { observing := true }) vals
      = (cleanupSignal { observing := true }, 0) := by
  have harmF : (armWhenTriggered false).1 = { observing := true } := rfl
  have hpreAny : pre.any (fun v => v) = false := by
    rw [List.any_eq_false]
    intro b hb
    simp [hpre b hb]
  refine ⟨rfl, ?_, rfl, ?_, ?_, runSignal_of_notObserving _ rfl vals⟩
  · have : (armWhenTriggered true).1 = { observing := false } := rfl
    rw [this, runSignal_of_notObserving _ rfl vals]
  · rw [harmF, runSignal_count, hpreAny]
    rfl
  · rw [harmF, runSignal_count]
    simp [List.any_append, hpreAny]

theorem signal_strategy_contract_witness :
    ((∀ b ∈ [false, false], b = false)
    ∧ armWhenTriggered true = ({ observing := false }, 1)
    ∧ (runSignal (armWhenTriggered true).1 [false, true, true]).2 = 0
    ∧ armWhenTriggered false = ({ observing := true }, 0)
    ∧ (runSignal (armWhenTriggered false).1 [false, false]).2 = 0
    ∧ (runSignal (armWhenTriggered false).1
        ([false, false] ++ true :: [false, true])).2 = 1
    ∧ runSignal (cleanupSignal { observing := true }) [false, true, true]
      = (cleanupSignal { observing := true }, 0)) :=
  ⟨by decide,
    signal_strategy_contract [false, true, true] [false, false] [false, true]
      (by decide)⟩

/-- Claim C8: for the idle strategy, when the platform idle-scheduling
capability is unavailable it falls back to a fixed-delay timer using the
given timeout, whose default is 2000ms (or fires on the next macrotask if
no timeout is given); the region hydrates on the idle signal or on
timeout expiry, whichever comes first, and cleanup cancels the pending
idle/timeout request. -/
theorem idle_strategy_contract (idleAt tmo t : Nat) (r : IdleRequest) :
    effectiveIdleTimeout none = 2000
    ∧ effectiveIdleTimeout (some 4000) = 4000
    ∧ idleStrategyFireTime false idleAt (some (effectiveIdleTimeout none)) = 2000
    ∧ idleStrategyFireTime false idleAt (some tmo) = tmo
    ∧ idleStrategyFireTime false idleAt none = 0
    ∧ idleStrategyFireTime true idleAt (some (effectiveIdleTimeout none))
      = min idleAt 2000
    ∧ idleStrategyFireTime true idleAt (some tmo) ≤ idleAt
    ∧ idleStrategyFireTime true idleAt (some tmo) ≤ tmo
    ∧ (idleStrategyFireTime true idleAt (some tmo) = idleAt
        ∨ idleStrategyFireTime true idleAt (some tmo) = tmo)
    ∧ (r.cancel).fires t = false := by
  refine ⟨rfl, rfl, rfl, rfl, rfl, rfl, ?_, ?_, ?_, ?_⟩
  · exact min_le_left _ _
  · exact min_le_right _ _
  · rcases le_total idleAt tmo with h | h
    · exact Or.inl (by simpa [idleStrategyFireTime] using min_eq_left h)
    · exact Or.inr (by simpa [idleStrategyFireTime] using min_eq_right h)
  · simp [IdleRequest.cancel, IdleRequest.fires]

/-- Claim C9: for the interaction strategy, the default event set is
focus when none is given; one listener is attached per configured event
per root element; an event not in the configured set never causes
hydration; a configured event causes hydration exactly once even if
dispatched on multiple root elements simultaneously, all listeners being
removed on first fire and also by cleanup regardless of firing state. -/
theorem interaction_strategy_contract (events : List String) (els : List Nat)
    (occs : List (String × Nat)) (nm : String) (el1 el2 : Nat)
    (st : InteractionStrategy) (hne : els ≠ [])
    (hnames : ∀ o ∈ occs, o.1 ∉ events) (hnm : nm ∈ events)
    (h1 : el1 ∈ els) (h2 : el2 ∈ els) :
    effectiveInteractionEvents none = ["focus"]
    ∧ (armOnInteraction events els).1.listeners.length
      = events.length * els.length
    ∧ (runInteraction (armOnInteraction events els).1 occs).2 = 0
    ∧ runInteraction (armOnInteraction events els).1 [(nm, el1), (nm, el2)]
      = ({ listeners := [], armed := false }, 1)
    ∧ cleanupInteraction st = { listeners := [], armed := false } := by
  have hE : els.isEmpty = false := by
    cases els with
    | nil => exact absurd rfl hne
    | cons a l => rfl
  have harm : (armOnInteraction events els).1
      = { listeners := interactionListeners events els, armed := true } := by
    simp [armOnInteraction, hE]
  have hcontains : ((nm, el1) : String × Nat) ∈ interactionListeners events els :=
    (mem_interactionListeners events els (nm, el1)).mpr ⟨hnm, h1⟩
  refine ⟨rfl, ?_, ?_, ?_, rfl⟩
  · rw [harm]
    exact length_interactionListeners events els
  · rw [harm, runInteraction_count]
    have hany : occs.any
        (fun o => (interactionListeners events els).contains o) = false := by
      rw [List.any_eq_false]
      intro o ho
      have : o ∉ interactionListeners events els := fun hmem =>
        hnames o ho ((mem_interactionListeners events els o).mp hmem).1
      simpa using this
    rw [hany]
    rfl
  · rw [harm]
    simp [runInteraction, onDomEvent, hcontains]

theorem interaction_strategy_contract_witness :
    (([10, 11] : List Nat) ≠ []
    ∧ (∀ o ∈ ([("click", 10), ("mouseover", 11)] : List (String × Nat)),
        o.1 ∉ ["focus", "touchstart"])
    ∧ ("focus" : String) ∈ ["focus", "touchstart"]
    ∧ (10 : Nat) ∈ [10, 11] ∧ (11 : Nat) ∈ [10, 11])
    ∧ effectiveInteractionEvents none = ["focus"]
    ∧ (armOnInteraction ["focus", "touchstart"] [10, 11]).1.listeners.length
      = (["focus", "touchstart"] : List String).length
        * ([10, 11] : List Nat).length
    ∧ (runInteraction (armOnInteraction ["focus", "touchstart"] [10, 11]).1
        [("click", 10), ("mouseover", 11)]).2 = 0
    ∧ runInteraction (armOnInteraction ["focus", "touchstart"] [10, 11]).1
        [("focus", 10), ("focus", 11)]
      = ({ listeners := [], armed := false }, 1)
    ∧ cleanupInteraction { listeners := [("focus", 10)], armed := true }
      = { listeners := [], armed := false } :=
  ⟨⟨by decide, by decide, by decide, by decide, by decide⟩,
    interaction_strategy_contract ["focus", "touchstart"] [10, 11]
      [("click", 10), ("mouseover", 11)] "focus" 10 11
      { listeners := [("focus", 10)], armed := true }
      (by decide) (by decide) (by decide) (by decide) (by decide)⟩

/-- Claim C10: arming the visible strategy (and equally the interaction
strategy) against an empty root element set raises a development-time
diagnostic and the region never hydrates via that strategy's path. -/
theorem empty_root_set_diagnostic (events : List String)
    (evs : List Nat) (occs : List (String × Nat)) :
    (armWhenVisible []).2 = [Ev.diagnostic "empty root element set"]
    ∧ (armOnInteraction events []).2
      = [Ev.diagnostic "empty root element set"]
    ∧ (runVisible (armWhenVisible []).1 evs).2 = 0
    ∧ (runInteraction (armOnInteraction events []).1 occs).2 = 0 := by
  refine ⟨rfl, rfl, ?_, ?_⟩
  · rw [runVisible_of_notArmed (armWhenVisible []).1 rfl evs]
  · rw [runInteraction_of_notArmed (armOnInteraction events []).1 rfl occs]

end LazyHydration
